import Mathlib

/-!
Verification of the extended-JSON translation layer and request dispatch of the
mongo-data-api-go-alternative service.

The handlers (src/handlers/handlers.go, current revision) accept request bodies
parsed by Fiber's BodyParser into Go values (`map[string]interface{}`,
`[]interface{}`, `float64`, `string`, `bool`, `nil`), re-marshal them with
`encoding/json` and hand the bytes to the MongoDB Go driver's
`bson.UnmarshalExtJSON(jsonData, false, &bsonData)` (relaxed extended JSON, v2).
Outbound results go through `bson.MarshalExtJSON(output, false, false)`
(relaxed), `json.Unmarshal` back into Go values, and Fiber's `c.JSON`.

The embedding below models this pipeline:
  * `Json`    — a JSON document as transmitted on the wire.  A number literal
    carries its exact rational value plus a flag recording whether it was
    written without a fraction or exponent part (`42` vs `42.0` / `1e10`).
  * `GoVal`   — the result of `encoding/json` unmarshalling into
    `interface{}`: every number is a `float64` (modelled as an exact rational;
    none of the verified properties exercises double rounding), objects are Go
    maps (association list up to the later normalisation; duplicate keys
    resolve last-one-wins exactly as `encoding/json` does).
  * `jsonMarshal` — `encoding/json.Marshal` of such a Go value: map keys are
    emitted in sorted order (documented behaviour of `encoding/json`), and an
    integral float64 of magnitude below 1e21 is printed without a fraction or
    exponent part (Go uses the shortest decimal representation, `%f` style for
    magnitudes in [1e-6, 1e21)).
  * `BVal`    — the BSON value tree produced by `bson.UnmarshalExtJSON` into
    `interface{}`: documents are `bson.D` (ordered), scalars are `int32`,
    `int64`, `float64`, `string`, `bool`, `nil`, `primitive.ObjectID`,
    `primitive.DateTime`.
  * `unmarshalExtJSON` — the driver's relaxed extended JSON reader restricted
    to the wrapper keys exercised by the specification (`$oid`, `$date`,
    `$numberLong`, `$numberDouble`).  Wrapper detection follows the driver and
    the MongoDB extended JSON v2 specification: it looks at the first key of an
    object; if that key is in the reserved set the object must be exactly the
    corresponding type wrapper, otherwise parsing fails; if the first key is
    not reserved the object is a literal document.  Reserved wrappers other
    than the four above are modelled as parse failures; no theorem below
    depends on their successful parse.
  * `marshalExtJSONRelaxed` — the driver's relaxed extended JSON writer on the
    same fragment: int32/int64 as bare numbers, finite doubles as bare numbers,
    non-finite doubles canonically, ObjectId as `$oid` with lowercase hex,
    DateTime in the RFC-3339 representable range as `$date` with an ISO string
    using the driver's `2006-01-02T15:04:05.999Z07:00` layout (trailing zero
    milliseconds dropped).

All functions are executable; all recursion is structural (lists, fuel).
-/

set_option maxRecDepth 100000

namespace MongoApi

/-- A JSON value on the wire.  `num q lexInt`: `lexInt` is `true` when the
literal has no fraction and no exponent part (`42`), `false` otherwise
(`42.0`, `1e10`).  Object fields are in source order. -/
inductive Json where
  | null
  | bool (b : Bool)
  | num (q : Rat) (lexInt : Bool)
  | str (s : String)
  | arr (elems : List Json)
  | obj (fields : List (String × Json))

/-- A Go `interface{}` value as produced by `encoding/json` unmarshalling:
numbers are float64 (exact rational in the model), objects are
`map[string]interface{}` whose iteration order is irrelevant because every
observation below re-marshals them with sorted keys. -/
inductive GoVal where
  | null
  | bool (b : Bool)
  | num (q : Rat)
  | str (s : String)
  | arr (elems : List GoVal)
  | obj (fields : List (String × GoVal))

/-- A BSON value as produced by `bson.UnmarshalExtJSON` into `interface{}`:
`doc` is `bson.D` (ordered), `objectId` carries the 12 bytes, `dateTime`
carries milliseconds since the Unix epoch (UTC).  `doubleNaN`, `doubleInf`
and `doubleNegInf` stand for the three non-finite float64 values. -/
inductive BVal where
  | null
  | bool (b : Bool)
  | int32 (i : Int)
  | int64 (i : Int)
  | double (q : Rat)
  | doubleNaN
  | doubleInf
  | doubleNegInf
  | str (s : String)
  | objectId (bytes : List Nat)
  | dateTime (ms : Int)
  | arr (elems : List BVal)
  | doc (fields : List (String × BVal))

/-- Decode errors of the extended JSON reader, named after the error classes in
the specification; the driver reports them as error strings. -/
inductive EErr where
  | invalidObjectId
  | invalidDate
  | invalidNumber
  | wrapperExtraKeys
  | unsupportedWrapper (k : String)

/-- Lexicographic comparison of character lists by code point. -/
def charListLt : List Char → List Char → Bool
  | [], [] => false
  | [], _ :: _ => true
  | _ :: _, [] => false
  | a :: as, b :: bs =>
    if a.toNat < b.toNat then true
    else if b.toNat < a.toNat then false
    else charListLt as bs

/-- Strict key order used by `encoding/json` when marshalling a Go map: the
keys are sorted bytewise on their UTF-8 encoding, which coincides with
code-point order (UTF-8 encoding is order-preserving). -/
def keyLt (a b : String) : Bool := charListLt a.toList b.toList

/-- Insert one field into a key-sorted field list (insertion sort step). -/
def insertByKey {α : Type} (p : String × α) : List (String × α) → List (String × α)
  | [] => [p]
  | q :: rest => if keyLt p.1 q.1 then p :: q :: rest else q :: insertByKey p rest

/-- Sort a field list by key; models the sorted-key output of
`encoding/json.Marshal` on a Go map. -/
def sortByKey {α : Type} : List (String × α) → List (String × α)
  | [] => []
  | p :: rest => insertByKey p (sortByKey rest)

/-- Last-one-wins key deduplication: `encoding/json` stores fields of a JSON
object into a Go map in order, so a duplicated key keeps its last value. -/
def dedupKeys {α : Type} : List (String × α) → List (String × α)
  | [] => []
  | p :: rest => if rest.any (fun q => q.1 == p.1) then dedupKeys rest else p :: dedupKeys rest

mutual

/-- `encoding/json` unmarshalling of a JSON document into `interface{}` (this
is what Fiber's `c.BodyParser` does to the `map[string]interface{}` fields of
the `Document` struct, and what `serializeOutput` does to the extended JSON
bytes): every number becomes a float64, objects become Go maps. -/
def jsonUnmarshalAny : Json → GoVal
  | .null => .null
  | .bool b => .bool b
  | .num q _ => .num q
  | .str s => .str s
  | .arr xs => .arr (jsonUnmarshalAnyList xs)
  | .obj kvs => .obj (dedupKeys (jsonUnmarshalAnyFields kvs))

def jsonUnmarshalAnyList : List Json → List GoVal
  | [] => []
  | x :: xs => jsonUnmarshalAny x :: jsonUnmarshalAnyList xs

def jsonUnmarshalAnyFields : List (String × Json) → List (String × GoVal)
  | [] => []
  | (k, v) :: kvs => (k, jsonUnmarshalAny v) :: jsonUnmarshalAnyFields kvs

end

/-- Whether `encoding/json.Marshal` prints this float64 without a fraction or
exponent part: exactly the integral values of magnitude below 1e21 (Go prints
floats in that range in plain decimal notation with the shortest
representation, so integral values lose the decimal point). -/
def goLexInt (q : Rat) : Bool := q.den == 1 && q.num.natAbs < 1000000000000000000000

mutual

/-- `encoding/json.Marshal` of a Go value, reading the result back as a JSON
tree: map keys come out sorted, floats print as plain numbers (integral values
below 1e21 print with no fraction or exponent part). -/
def jsonMarshal : GoVal → Json
  | .null => .null
  | .bool b => .bool b
  | .num q => .num q (goLexInt q)
  | .str s => .str s
  | .arr xs => .arr (jsonMarshalList xs)
  | .obj kvs => .obj (sortByKey (jsonMarshalFields kvs))

def jsonMarshalList : List GoVal → List Json
  | [] => []
  | x :: xs => jsonMarshal x :: jsonMarshalList xs

def jsonMarshalFields : List (String × GoVal) → List (String × Json)
  | [] => []
  | (k, v) :: kvs => (k, jsonMarshal v) :: jsonMarshalFields kvs

end

example : jsonMarshal (jsonUnmarshalAny (.obj [("b", .num 1 true), ("a", .num 1 false)]))
    = .obj [("a", .num 1 true), ("b", .num 1 true)] := rfl

/-! ### ObjectId hex encoding

`primitive.ObjectIDFromHex` requires a 24-character hex string (either case)
and decodes it with `hex.DecodeString`; `ObjectID.Hex` prints lowercase. -/

/-- Value of one hex digit (`0-9`, `a-f`, `A-F`). -/
def hexDigitVal (c : Char) : Nat :=
  if c.toNat ≤ 57 then c.toNat - 48
  else if c.toNat ≤ 70 then c.toNat - 55
  else c.toNat - 87

/-- Whether a character is a hex digit, as accepted by Go's
`hex.DecodeString`. -/
def isHexDigitB (c : Char) : Bool :=
  (48 ≤ c.toNat && c.toNat ≤ 57) || (97 ≤ c.toNat && c.toNat ≤ 102) ||
    (65 ≤ c.toNat && c.toNat ≤ 70)

/-- Decode pairs of hex digits into bytes; `none` on a non-digit or an odd
count. -/
def hexPairsToBytes : List Char → Option (List Nat)
  | [] => some []
  | c1 :: c2 :: rest =>
    if isHexDigitB c1 && isHexDigitB c2 then
      (hexPairsToBytes rest).map (fun bs => (hexDigitVal c1 * 16 + hexDigitVal c2) :: bs)
    else none
  | [_] => none

/-- Parse a `$oid` payload: exactly 24 hex characters, giving 12 bytes. -/
def parseOidHex (s : String) : Option (List Nat) :=
  if s.toList.length = 24 then hexPairsToBytes s.toList else none

/-- One lowercase hex digit. -/
def hexDigitChar (n : Nat) : Char :=
  if n < 10 then Char.ofNat (48 + n) else Char.ofNat (87 + n)

/-- One byte as two lowercase hex digits. -/
def hexByteChars (b : Nat) : List Char := [hexDigitChar (b / 16), hexDigitChar (b % 16)]

/-- `ObjectID.Hex`: the 12 bytes as a 24-character lowercase hex string. -/
def oidHexString (bytes : List Nat) : String := String.mk (bytes.map hexByteChars).flatten

example : parseOidHex (oidHexString [0, 1, 171, 255, 16, 17, 18, 19, 20, 21, 22, 23])
    = some [0, 1, 171, 255, 16, 17, 18, 19, 20, 21, 22, 23] := rfl

/-! ### Proleptic Gregorian calendar

The driver parses `$date` strings with Go's `time.Parse` on the layout
`2006-01-02T15:04:05.999Z07:00` and formats `time.Time` values with the same
layout (`.999` drops trailing zeros of the millisecond fraction and
disappears when the fraction is zero).  Days are counted absolutely from
0000-01-01 of the proleptic Gregorian calendar; 1970-01-01 is absolute day
719528. -/

/-- Gregorian leap year rule. -/
def isLeap (y : Nat) : Bool := y % 4 == 0 && (y % 100 != 0 || y % 400 == 0)

/-- Days in a calendar year. -/
def daysInYear (y : Nat) : Nat := if isLeap y then 366 else 365

/-- Month lengths, January to December. -/
def monthLengths (leap : Bool) : List Nat :=
  [31, if leap then 29 else 28, 31, 30, 31, 30, 31, 31, 30, 31, 30, 31]

/-- Days before the start of year `y`, counting from 0000-01-01 (closed form:
365 per year plus one per leap year in `[0, y)`; year 0 is a leap year). -/
def daysBeforeYear (y : Nat) : Nat :=
  365 * y + (y + 3) / 4 + (y + 399) / 400 - (y + 99) / 100

/-- Sum of the first `k` entries of a list (days before month `k+1`). -/
def sumFirst : List Nat → Nat → Nat
  | _, 0 => 0
  | [], _ + 1 => 0
  | l :: ls, k + 1 => l + sumFirst ls k

/-- Absolute day number (days since 0000-01-01) of a civil date. -/
def daysFromCivil (y m d : Nat) : Nat :=
  daysBeforeYear y + sumFirst (monthLengths (isLeap y)) (m - 1) + (d - 1)

/-- Binary search for the year containing absolute day `n`: the unique `y`
in `[lo, hi)` with `daysBeforeYear y ≤ n < daysBeforeYear (y + 1)`.  The fuel
only bounds the recursion; `hi - lo` steps always suffice while the actual
call depth is logarithmic. -/
def findYear : Nat → Nat → Nat → Nat → Nat
  | 0, lo, _, _ => lo
  | fuel + 1, lo, hi, n =>
    if hi ≤ lo + 1 then lo
    else if n < daysBeforeYear ((lo + hi) / 2) then findYear fuel lo ((lo + hi) / 2) n
    else findYear fuel ((lo + hi) / 2) hi n

/-- Peel whole months off a day-of-year count. -/
def peelMonths : List Nat → Nat → Nat → Nat × Nat
  | [], m, n => (m, n)
  | len :: rest, m, n => if n < len then (m, n) else peelMonths rest (m + 1) (n - len)

/-- Civil date `(year, month, day)` of an absolute day number below
3652425 (i.e. before year 10000). -/
def daysToCivil (n : Nat) : Nat × Nat × Nat :=
  let y := findYear 10000 0 10000 n
  let md := peelMonths (monthLengths (isLeap y)) 1 (n - daysBeforeYear y)
  (y, md.1, md.2 + 1)

example : daysToCivil 719528 = (1970, 1, 1) := by decide
example : daysFromCivil 2024 1 1 = 719528 + 19723 := by decide
example : daysToCivil (719528 + 19723) = (2024, 1, 1) := by decide

/-! ### RFC-3339 timestamps (layout `2006-01-02T15:04:05.999Z07:00`) -/

/-- Whether a character is a decimal digit. -/
def isDigitB (c : Char) : Bool := 48 ≤ c.toNat && c.toNat ≤ 57

/-- Value of a decimal digit. -/
def digitVal (c : Char) : Nat := c.toNat - 48

/-- Two-digit zero-padded decimal. -/
def pad2 (n : Nat) : List Char := [Char.ofNat (48 + n / 10 % 10), Char.ofNat (48 + n % 10)]

/-- Four-digit zero-padded decimal. -/
def pad4 (n : Nat) : List Char :=
  [Char.ofNat (48 + n / 1000 % 10), Char.ofNat (48 + n / 100 % 10),
   Char.ofNat (48 + n / 10 % 10), Char.ofNat (48 + n % 10)]

/-- The millisecond fraction in Go's `.999` style: nothing when zero,
otherwise a dot and up to three digits with trailing zeros dropped. -/
def fracChars (f : Nat) : List Char :=
  if f % 1000 == 0 then []
  else if f % 100 == 0 then ['.', Char.ofNat (48 + f / 100 % 10)]
  else if f % 10 == 0 then ['.', Char.ofNat (48 + f / 100 % 10), Char.ofNat (48 + f / 10 % 10)]
  else ['.', Char.ofNat (48 + f / 100 % 10), Char.ofNat (48 + f / 10 % 10),
        Char.ofNat (48 + f % 10)]

/-- The `2006-01-02` date part for a civil date triple. -/
def dateChars (c : Nat × Nat × Nat) : List Char :=
  pad4 c.1 ++ '-' :: pad2 c.2.1 ++ '-' :: pad2 c.2.2

/-- The `15:04:05.999Z` time part for a millisecond-of-day count. -/
def timeChars (r : Nat) : List Char :=
  pad2 (r / 3600000) ++ ':' :: pad2 (r / 60000 % 60) ++ ':' :: pad2 (r / 1000 % 60)
    ++ fracChars (r % 1000) ++ ['Z']

/-- The driver's formatting of a UTC timestamp (milliseconds since epoch,
non-negative and before year 10000) with Go's layout
`2006-01-02T15:04:05.999Z07:00`. -/
def formatRFC3339 (ms : Int) : String :=
  String.mk (dateChars (daysToCivil (719528 + ms.toNat / 86400000))
    ++ 'T' :: timeChars (ms.toNat % 86400000))

/-- Split a leading run of digits off a character list. -/
def takeDigits : List Char → List Char × List Char
  | [] => ([], [])
  | c :: rest =>
    if isDigitB c then
      let p := takeDigits rest
      (c :: p.1, p.2)
    else ([], c :: rest)

/-- Milliseconds denoted by a fraction-digit run (first three digits;
further digits are sub-millisecond precision that `time.UnixMilli`
truncates away). -/
def msOfFracDigits (ds : List Char) : Nat :=
  digitVal (ds.getD 0 '0') * 100 + digitVal (ds.getD 1 '0') * 10 + digitVal (ds.getD 2 '0')

/-- Parse the timezone tail of the layout: `Z` or a signed `hh:mm` offset,
returned in seconds east of UTC. -/
def parseOffset : List Char → Option Int
  | ['Z'] => some 0
  | ['+', h1, h2, ':', m1, m2] =>
    if isDigitB h1 && isDigitB h2 && isDigitB m1 && isDigitB m2 then
      some (((digitVal h1 * 10 + digitVal h2) * 60 + (digitVal m1 * 10 + digitVal m2)) * 60)
    else none
  | ['-', h1, h2, ':', m1, m2] =>
    if isDigitB h1 && isDigitB h2 && isDigitB m1 && isDigitB m2 then
      some (-(((digitVal h1 * 10 + digitVal h2) * 60 + (digitVal m1 * 10 + digitVal m2)) * 60 : Int))
    else none
  | _ => none

/-- Parse the optional fraction (one to nine digits after a dot, as
`time.Parse` accepts) followed by the timezone tail. -/
def parseFracOffset : List Char → Option (Nat × Int)
  | '.' :: rest =>
    if (takeDigits rest).1.length = 0 ∨ 9 < (takeDigits rest).1.length then none
    else (parseOffset (takeDigits rest).2).map (fun off => (msOfFracDigits (takeDigits rest).1, off))
  | rest => (parseOffset rest).map (fun off => (0, off))

/-- `time.Parse` on the layout `2006-01-02T15:04:05.999Z07:00`, reduced to
epoch milliseconds (`time.UnixMilli`): fixed-width date and time fields,
component range checks (Go rejects out-of-range months, days, hours, minutes
and seconds), optional fraction, mandatory zone. -/
def parseRFC3339 (s : String) : Option Int :=
  match s.toList with
  | y1 :: y2 :: y3 :: y4 :: '-' :: mo1 :: mo2 :: '-' :: d1 :: d2 :: 'T'
      :: h1 :: h2 :: ':' :: mi1 :: mi2 :: ':' :: s1 :: s2 :: rest =>
    if isDigitB y1 && isDigitB y2 && isDigitB y3 && isDigitB y4 && isDigitB mo1 && isDigitB mo2
        && isDigitB d1 && isDigitB d2 && isDigitB h1 && isDigitB h2 && isDigitB mi1
        && isDigitB mi2 && isDigitB s1 && isDigitB s2 then
      let y := digitVal y1 * 1000 + digitVal y2 * 100 + digitVal y3 * 10 + digitVal y4
      let mo := digitVal mo1 * 10 + digitVal mo2
      let d := digitVal d1 * 10 + digitVal d2
      let h := digitVal h1 * 10 + digitVal h2
      let mi := digitVal mi1 * 10 + digitVal mi2
      let sec := digitVal s1 * 10 + digitVal s2
      if 1 ≤ mo ∧ mo ≤ 12 ∧ 1 ≤ d ∧ d ≤ (monthLengths (isLeap y)).getD (mo - 1) 0
          ∧ h ≤ 23 ∧ mi ≤ 59 ∧ sec ≤ 59 then
        match parseFracOffset rest with
        | some fo =>
          some (((daysFromCivil y mo d : Int) - 719528) * 86400000
            + ((h * 3600000 + mi * 60000 + sec * 1000 + fo.1 : Nat) : Int) - fo.2 * 1000)
        | none => none
      else none
    else none
  | _ => none

example : parseRFC3339 "2024-01-01T00:00:00Z" = some 1704067200000 := by decide
example : formatRFC3339 1704067200000 = "2024-01-01T00:00:00Z" := by decide
example : parseRFC3339 "2024-06-15T11:22:33.04+02:00" =
    some (1718450553040 - 7200000) := by decide

/-! ### Numeric payload strings (`$numberLong`, `$numberDouble`) -/

/-- Horner evaluation of a digit run. -/
def digitsToNat : List Char → Nat → Nat
  | [], acc => acc
  | c :: rest, acc => digitsToNat rest (acc * 10 + digitVal c)

/-- A non-empty all-digit run as a natural number. -/
def parseNatDigits (cs : List Char) : Option Nat :=
  if cs ≠ [] ∧ cs.all isDigitB then some (digitsToNat cs 0) else none

/-- `strconv.ParseInt(s, 10, 64)`: optional sign, digits, 64-bit range
check. -/
def parseLongString (s : String) : Option Int :=
  match s.toList with
  | '+' :: rest =>
    (parseNatDigits rest).bind (fun n =>
      if n < 9223372036854775808 then some (n : Int) else none)
  | '-' :: rest =>
    (parseNatDigits rest).bind (fun n =>
      if n ≤ 9223372036854775808 then some (-(n : Int)) else none)
  | rest =>
    (parseNatDigits rest).bind (fun n =>
      if n < 9223372036854775808 then some (n : Int) else none)

/-- Decimal mantissa with optional fraction: `digits [. digits]`, at least
one digit overall; returns the digits-as-integer and the fraction length. -/
def parseMantissa (cs : List Char) : Option (Nat × Nat × List Char) :=
  let ip := takeDigits cs
  match ip.2 with
  | '.' :: rest =>
    let fp := takeDigits rest
    if ip.1.length + fp.1.length = 0 then none
    else some (digitsToNat (ip.1 ++ fp.1) 0, fp.1.length, fp.2)
  | rest => if ip.1.length = 0 then none else some (digitsToNat ip.1 0, 0, rest)

/-- Optional decimal exponent: empty, or `e`/`E` with optional sign and
digits. -/
def parseExponent : List Char → Option Int
  | [] => some 0
  | 'e' :: '+' :: rest => (parseNatDigits rest).map (fun n => (n : Int))
  | 'e' :: '-' :: rest => (parseNatDigits rest).map (fun n => -(n : Int))
  | 'e' :: rest => (parseNatDigits rest).map (fun n => (n : Int))
  | 'E' :: '+' :: rest => (parseNatDigits rest).map (fun n => (n : Int))
  | 'E' :: '-' :: rest => (parseNatDigits rest).map (fun n => -(n : Int))
  | 'E' :: rest => (parseNatDigits rest).map (fun n => (n : Int))
  | _ => none

/-- Scale a rational by a power of ten. -/
def scalePow10 (q : Rat) (e : Int) : Rat :=
  if 0 ≤ e then q * (10 : Rat) ^ e.toNat else q / (10 : Rat) ^ (-e).toNat

/-- The `$numberDouble` payload rule: the three non-finite spellings the
extended JSON specification fixes, otherwise `strconv.ParseFloat` on a plain
decimal literal (the value is kept as an exact rational; double rounding is
outside the model and no theorem depends on it). -/
def parseDoubleString (s : String) : Option BVal :=
  if s = "NaN" then some .doubleNaN
  else if s = "Infinity" then some .doubleInf
  else if s = "-Infinity" then some .doubleNegInf
  else
    match s.toList with
    | '-' :: rest =>
      (parseMantissa rest).bind (fun mfr =>
        (parseExponent mfr.2.2).map (fun e =>
          .double (-(scalePow10 ((mfr.1 : Rat) / (10 : Rat) ^ mfr.2.1) e))))
    | '+' :: rest =>
      (parseMantissa rest).bind (fun mfr =>
        (parseExponent mfr.2.2).map (fun e =>
          .double (scalePow10 ((mfr.1 : Rat) / (10 : Rat) ^ mfr.2.1) e)))
    | rest =>
      (parseMantissa rest).bind (fun mfr =>
        (parseExponent mfr.2.2).map (fun e =>
          .double (scalePow10 ((mfr.1 : Rat) / (10 : Rat) ^ mfr.2.1) e)))

example : parseLongString "-42" = some (-42) := by decide
example : parseDoubleString "2.5e1" = some (.double 25) := by
  simp [parseDoubleString, parseMantissa, parseExponent, takeDigits, isDigitB, digitsToNat,
    digitVal, scalePow10, parseNatDigits]

/-! ### The relaxed extended JSON reader (`bson.UnmarshalExtJSON(..., false, ...)`) -/

/-- The reserved type-wrapper keys recognised by the driver when it peeks at
the first key of an object: the MongoDB extended JSON v2 wrapper keys plus
`$uuid`, the driver's Binary subtype-4 string form. -/
def reservedKeys : List String :=
  ["$oid", "$date", "$numberDouble", "$numberLong", "$numberInt", "$numberDecimal",
   "$symbol", "$binary", "$uuid", "$code", "$scope", "$timestamp", "$regularExpression",
   "$dbPointer", "$minKey", "$maxKey", "$undefined"]

/-- A bare (unwrapped) JSON number under the v2 parse rule: an integer literal
becomes `int32` when it fits, `int64` when it fits, and a float64 otherwise; a
literal with a fraction or exponent part is a float64. -/
def parseBareNum (q : Rat) (lexInt : Bool) : BVal :=
  if lexInt ∧ q.den = 1 then
    if -2147483648 ≤ q.num ∧ q.num < 2147483648 then .int32 q.num
    else if -9223372036854775808 ≤ q.num ∧ q.num < 9223372036854775808 then .int64 q.num
    else .double q
  else .double q

/-- Parse a single-key type wrapper `{k: v}` for a reserved key `k`.  `$oid`,
`$date`, `$numberLong` and `$numberDouble` follow the driver / the v2
specification (for `$date` both the RFC-3339 string and the integer /
`$numberLong` millisecond forms are accepted); the remaining reserved
wrappers are modelled as failures, which no theorem below relies on. -/
def parseWrapper (k : String) (v : Json) : Except EErr BVal :=
  if k = "$oid" then
    match v with
    | .str s =>
      match parseOidHex s with
      | some bytes => .ok (.objectId bytes)
      | none => .error .invalidObjectId
    | _ => .error .invalidObjectId
  else if k = "$date" then
    match v with
    | .str s =>
      match parseRFC3339 s with
      | some ms => .ok (.dateTime ms)
      | none => .error .invalidDate
    | .num q lexInt =>
      if lexInt ∧ q.den = 1 then .ok (.dateTime q.num) else .error .invalidDate
    | .obj [("$numberLong", .str s)] =>
      match parseLongString s with
      | some ms => .ok (.dateTime ms)
      | none => .error .invalidDate
    | _ => .error .invalidDate
  else if k = "$numberLong" then
    match v with
    | .str s =>
      match parseLongString s with
      | some i => .ok (.int64 i)
      | none => .error .invalidNumber
    | _ => .error .invalidNumber
  else if k = "$numberDouble" then
    match v with
    | .str s =>
      match parseDoubleString s with
      | some d => .ok d
      | none => .error .invalidNumber
    | _ => .error .invalidNumber
  else .error (.unsupportedWrapper k)

mutual

/-- The driver's relaxed extended JSON reader on the modelled fragment.
Objects: the driver peeks at the first key; a reserved first key commits to
type-wrapper parsing, and any sibling key is then a parse error (the v2
specification likewise forbids extra keys in wrappers); a non-reserved first
key yields a literal document parsed field by field in order. -/
def unmarshalExtJSON : Json → Except EErr BVal
  | .null => .ok .null
  | .bool b => .ok (.bool b)
  | .num q lexInt => .ok (parseBareNum q lexInt)
  | .str s => .ok (.str s)
  | .arr xs => (unmarshalExtJSONList xs).map .arr
  | .obj [] => .ok (.doc [])
  | .obj ((k, v) :: rest) =>
    if k ∈ reservedKeys then
      match rest with
      | [] => parseWrapper k v
      | _ :: _ => .error .wrapperExtraKeys
    else (unmarshalExtJSONFields ((k, v) :: rest)).map .doc

def unmarshalExtJSONList : List Json → Except EErr (List BVal)
  | [] => .ok []
  | x :: xs =>
    match unmarshalExtJSON x with
    | .error e => .error e
    | .ok v =>
      match unmarshalExtJSONList xs with
      | .error e => .error e
      | .ok vs => .ok (v :: vs)

def unmarshalExtJSONFields : List (String × Json) → Except EErr (List (String × BVal))
  | [] => .ok []
  | (k, v) :: kvs =>
    match unmarshalExtJSON v with
    | .error e => .error e
    | .ok w =>
      match unmarshalExtJSONFields kvs with
      | .error e => .error e
      | .ok ws => .ok ((k, w) :: ws)

end

/-- `deserializeInput` (src/handlers/handlers.go:32-50): `json.Marshal` the Go
value Fiber produced, then `bson.UnmarshalExtJSON(jsonData, false, &bsonData)`. -/
def deserializeInput (g : GoVal) : Except EErr BVal := unmarshalExtJSON (jsonMarshal g)

/-- The full decode direction as seen from the wire: Fiber's BodyParser
(`encoding/json` into `interface{}`) followed by `deserializeInput`. -/
def decodeField (j : Json) : Except EErr BVal := deserializeInput (jsonUnmarshalAny j)

/-! ### The relaxed extended JSON writer (`bson.MarshalExtJSON(..., false, false)`) -/

mutual

/-- The driver's relaxed extended JSON writer on the modelled fragment:
int32/int64 and finite doubles as bare numbers, the non-finite doubles in
canonical `$numberDouble` form, ObjectId as `$oid` with lowercase hex,
DateTime as an RFC-3339 `$date` string when the timestamp lies in
`[1970, 10000)` and as `$date`/`$numberLong` otherwise; `bson.D` documents
keep their field order. (The `lexInt` flags written here are irrelevant:
every consumer first runs the output through `jsonUnmarshalAny`, which
forgets them.) -/
def marshalExtJSONRelaxed : BVal → Json
  | .null => .null
  | .bool b => .bool b
  | .int32 i => .num (i : Rat) true
  | .int64 i => .num (i : Rat) true
  | .double q => .num q false
  | .doubleNaN => .obj [("$numberDouble", .str "NaN")]
  | .doubleInf => .obj [("$numberDouble", .str "Infinity")]
  | .doubleNegInf => .obj [("$numberDouble", .str "-Infinity")]
  | .str s => .str s
  | .objectId bytes => .obj [("$oid", .str (oidHexString bytes))]
  | .dateTime ms =>
    if 0 ≤ ms ∧ ms < 253402300800000 then .obj [("$date", .str (formatRFC3339 ms))]
    else .obj [("$date", .obj [("$numberLong", .str (toString ms))])]
  | .arr xs => .arr (marshalExtJSONRelaxedList xs)
  | .doc kvs => .obj (marshalExtJSONRelaxedFields kvs)

def marshalExtJSONRelaxedList : List BVal → List Json
  | [] => []
  | x :: xs => marshalExtJSONRelaxed x :: marshalExtJSONRelaxedList xs

def marshalExtJSONRelaxedFields : List (String × BVal) → List (String × Json)
  | [] => []
  | (k, v) :: kvs => (k, marshalExtJSONRelaxed v) :: marshalExtJSONRelaxedFields kvs

end

/-- `serializeOutput` (src/handlers/handlers.go:53-67):
`bson.MarshalExtJSON(output, false, false)` then `json.Unmarshal` of the
bytes back into a Go `interface{}` value. -/
def serializeOutput (v : BVal) : GoVal := jsonUnmarshalAny (marshalExtJSONRelaxed v)

/-- The full encode direction as seen from the wire: `serializeOutput`
followed by Fiber's `c.JSON` (`encoding/json.Marshal` of the Go value). -/
def encodeField (v : BVal) : Json := jsonMarshal (serializeOutput v)

/-- One hop of a JSON document through Go: `encoding/json` unmarshalling into
`interface{}` followed by `encoding/json.Marshal`.  `decodeField j`
definitionally equals `unmarshalExtJSON (goRound j)` and `encodeField v`
equals `goRound (marshalExtJSONRelaxed v)`. -/
def goRound (j : Json) : Json := jsonMarshal (jsonUnmarshalAny j)

example : decodeField (.obj [("$date", .str "2024-01-01T00:00:00Z")])
    = .ok (.dateTime 1704067200000) := rfl

example : encodeField (.dateTime 1704067200000)
    = .obj [("$date", .str "2024-01-01T00:00:00Z")] := rfl

example : decodeField (encodeField (.int64 5)) = .ok (.int32 5) := rfl

example : decodeField (.obj [("$oid", .str "aaaaaaaaaaaaaaaaaaaaaaaa"), ("extra", .num 1 true)])
    = .error .wrapperExtraKeys := rfl

example : decodeField (.arr [.obj [("$project", .obj [("b", .num 1 true), ("a", .num 1 true)])]])
    = .ok (.arr [.doc [("$project", .doc [("a", .int32 1), ("b", .int32 1)])]]) := rfl

/-! ### Handler models (src/handlers/handlers.go, current revision)

The handlers are modelled after the body has been parsed by Fiber
(`c.BodyParser`): a request carries the envelope strings and the relevant
JSON fields.  The storage collaborator (`db.GetCollection(...).FindOne`/
`InsertOne`) is an oracle parameter; `storageCalled` records whether the
handler reached the storage call.  Human-readable message strings match the
source; the `details` strings attached from `err.Error()` are summarised by
the error constructor name. -/

/-- Outcome of one handler invocation: HTTP status, response body, and
whether the storage collaborator was invoked. -/
structure HandlerResult where
  status : Nat
  body : Json
  storageCalled : Bool

/-- Short message for a decode error (stands in for the driver's
`err.Error()` text in the `details` field). -/
def errDetails : EErr → String
  | .invalidObjectId => "invalid ObjectId"
  | .invalidDate => "invalid date"
  | .invalidNumber => "invalid number"
  | .wrapperExtraKeys => "invalid extended JSON wrapper"
  | .unsupportedWrapper k => k

/-- A findOne request: envelope plus the `filter` field as it appeared in the
request JSON (the projection is passed to the driver verbatim and does not
affect the modelled outcome). -/
structure FindOneRequest where
  database : String
  collection : String
  filter : Json

/-- Oracle outcome of `collection.FindOne(...).Decode(&result)`: a document
(as the unordered `bson.M` the driver decodes into, represented by its field
list), `mongo.ErrNoDocuments`, or any other driver error. -/
inductive FindOneStorage where
  | found (fields : List (String × BVal))
  | noDocuments
  | failure (msg : String)

/-- `FindOne` (src/handlers/handlers.go:141-183): deserialize the filter (400
on failure, before any storage access), call the storage collaborator,
map `mongo.ErrNoDocuments` to `200 {"document": null}`, other storage errors
to 500, and serialize the wrapped result otherwise. -/
def findOneHandler (req : FindOneRequest) (st : FindOneStorage) : HandlerResult :=
  match deserializeInput (jsonUnmarshalAny req.filter) with
  | .error e =>
    ⟨400, .obj [("error", .str "Failed to deserialize filter"), ("details", .str (errDetails e))],
      false⟩
  | .ok _ =>
    match st with
    | .noDocuments => ⟨200, .obj [("document", .null)], true⟩
    | .failure m => ⟨500, .obj [("error", .str m)], true⟩
    | .found fields =>
      ⟨200, jsonMarshal (serializeOutput (.doc [("document", .doc fields)])), true⟩

/-- An insertOne request: envelope plus the `document` field. -/
structure InsertOneRequest where
  database : String
  collection : String
  document : Json

/-- Oracle outcome of `collection.InsertOne`. -/
inductive InsertStorage where
  | inserted (id : BVal)
  | failure (msg : String)

/-- `InsertOne` (src/handlers/handlers.go:70-101): deserialize the document
(400 on failure), then call the storage collaborator — note
`db.GetCollection(doc.Database, doc.Collection)` is reached with whatever
envelope strings were supplied, empty ones included (`GetCollection`,
src/db/db.go:46-48, performs no validation). -/
def insertOneHandler (req : InsertOneRequest) (st : InsertStorage) : HandlerResult :=
  match deserializeInput (jsonUnmarshalAny req.document) with
  | .error _ => ⟨400, .obj [("error", .str "Failed to deserialize document")], false⟩
  | .ok _ =>
    match st with
    | .failure m => ⟨500, .obj [("error", .str m)], true⟩
    | .inserted oid =>
      ⟨200, jsonMarshal (serializeOutput (.doc [("insertedId", oid)])), true⟩

/-! ### Routing and middleware (src/main.go, current revision) -/

/-- The nine operation routes registered under `/api`. -/
def apiRoutes : List String :=
  ["/api/insertOne", "/api/insertMany", "/api/findOne", "/api/find", "/api/updateOne",
   "/api/updateMany", "/api/deleteOne", "/api/deleteMany", "/api/aggregate"]

/-- Response body of the health handler (src/main.go:139-141). -/
def healthBody : Json := .obj [("status", .str "ok")]

/-- Response body of the API-key middleware rejection (src/main.go:42-46). -/
def forbiddenBody : Json := .obj [("message", .str "Forbidden: Invalid API Key ")]

/-- Response of a route handler together with the flag that a route handler
ran at all (false when the middleware short-circuits). -/
structure AppResponse where
  status : Nat
  body : Json
  handlerRan : Bool

/-- The Fiber app (src/main.go:34-57,136-156): the API-key middleware first
exempts `/api/health` and `/metrics`, then compares the `apiKey` header with
`os.Getenv("API_KEY")` and answers 403 without calling `c.Next()` on
mismatch; otherwise the request reaches routing.  `dispatch` abstracts the
registered route handlers and `metricsResp` the Prometheus handler mounted at
`/metrics`; the metrics-recording middleware between the two only observes
responses and is omitted. -/
def appHandle (dispatch : String → AppResponse) (metricsResp : AppResponse)
    (path apiKeyHeader envApiKey : String) : AppResponse :=
  if path = "/api/health" ∨ path = "/metrics" then
    if path = "/api/health" then ⟨200, healthBody, true⟩ else metricsResp
  else if apiKeyHeader ≠ envApiKey then ⟨403, forbiddenBody, false⟩
  else dispatch path

/-- Whether an `Except` carries a success value. -/
def isOkE {ε α : Type} : Except ε α → Bool
  | .ok _ => true
  | .error _ => false

/-- Whether a string starts with the `$` character. -/
def startsWithDollar (s : String) : Bool :=
  match s.toList with
  | c :: _ => c == '$'
  | [] => false

/-- A Go value contains, somewhere in value position, a single-key object
`{"$oid": s}` whose payload `s` is not a 24-character hex string. -/
inductive ContainsBadOid : GoVal → Prop where
  | here (s : String) : parseOidHex s = none → ContainsBadOid (.obj [("$oid", .str s)])
  | inArr {xs : List GoVal} {x : GoVal} : x ∈ xs → ContainsBadOid x → ContainsBadOid (.arr xs)
  | inObj {kvs : List (String × GoVal)} {p : String × GoVal} :
      p ∈ kvs → ContainsBadOid p.2 → ContainsBadOid (.obj kvs)

/-- The ExtendedValue trees on which the decode-after-encode round trip can
hold on this code path: scalars other than `int64`/`double` (an `int64` in
int32 range returns as `int32`, an integral `double` returns as an integer
type, so integers are representable here as `int32` in int32 range only),
`dateTime` in the RFC-3339-representable range, well-formed 12-byte object
ids, and arrays/documents of such values where a document's keys are strictly
sorted (Go maps lose any other order) and do not start with `$` (the reserved
namespace of extended JSON wrappers). -/
inductive Roundtrippable : BVal → Prop where
  | null : Roundtrippable .null
  | bool (b : Bool) : Roundtrippable (.bool b)
  | str (s : String) : Roundtrippable (.str s)
  | int32 (i : Int) : -2147483648 ≤ i → i < 2147483648 → Roundtrippable (.int32 i)
  | objectId (bytes : List Nat) : bytes.length = 12 → (∀ b ∈ bytes, b < 256) →
      Roundtrippable (.objectId bytes)
  | dateTime (ms : Int) : 0 ≤ ms → ms < 253402300800000 → Roundtrippable (.dateTime ms)
  | arr (xs : List BVal) : (∀ x ∈ xs, Roundtrippable x) → Roundtrippable (.arr xs)
  | doc (kvs : List (String × BVal)) : (∀ p ∈ kvs, Roundtrippable p.2) →
      kvs.Pairwise (fun p q => keyLt p.1 q.1 = true) →
      (∀ p ∈ kvs, startsWithDollar p.1 = false) → Roundtrippable (.doc kvs)

/-! ## Shared lemmas about the list and key machinery -/

theorem charListLt_irrefl (l : List Char) : charListLt l l = false := by
  induction l with
  | nil => rfl
  | cons a as ih => simp [charListLt, ih]

theorem keyLt_irrefl (s : String) : keyLt s s = false := charListLt_irrefl _

theorem keyLt_ne {a b : String} (h : keyLt a b = true) : a ≠ b := by
  intro he
  subst he
  rw [keyLt_irrefl] at h
  exact Bool.noConfusion h

theorem mem_insertByKey {α : Type} {p a : String × α} {l : List (String × α)} :
    a ∈ insertByKey p l ↔ a = p ∨ a ∈ l := by
  induction l with
  | nil => simp [insertByKey]
  | cons q rest ih =>
    unfold insertByKey
    split
    · simp [List.mem_cons]
    · simp [List.mem_cons, ih]
      tauto

theorem mem_sortByKey {α : Type} {a : String × α} {l : List (String × α)} :
    a ∈ sortByKey l ↔ a ∈ l := by
  induction l with
  | nil => simp [sortByKey]
  | cons p rest ih => simp [sortByKey, mem_insertByKey, ih, List.mem_cons]

theorem dedupKeys_of_pairwise_ne {α : Type} {l : List (String × α)}
    (h : l.Pairwise (fun p q => p.1 ≠ q.1)) : dedupKeys l = l := by
  induction l with
  | nil => rfl
  | cons p rest ih =>
    obtain ⟨h1, h2⟩ := List.pairwise_cons.mp h
    have hany : rest.any (fun q => q.1 == p.1) = false := by
      rw [List.any_eq_false]
      intro q hq
      simp only [beq_iff_eq]
      exact fun he => h1 q hq he.symm
    simp [dedupKeys, hany, ih h2]

theorem sortByKey_of_pairwise {α : Type} {l : List (String × α)}
    (h : l.Pairwise (fun p q => keyLt p.1 q.1 = true)) : sortByKey l = l := by
  induction l with
  | nil => rfl
  | cons p rest ih =>
    obtain ⟨h1, h2⟩ := List.pairwise_cons.mp h
    rw [sortByKey, ih h2]
    cases rest with
    | nil => rfl
    | cons q rest2 => simp [insertByKey, h1 q (List.mem_cons_self q rest2)]

theorem jsonUnmarshalAnyList_eq (xs : List Json) :
    jsonUnmarshalAnyList xs = xs.map jsonUnmarshalAny := by
  induction xs with
  | nil => rfl
  | cons x xs ih => simp [jsonUnmarshalAnyList, ih]

theorem jsonUnmarshalAnyFields_eq (kvs : List (String × Json)) :
    jsonUnmarshalAnyFields kvs = kvs.map (fun p => (p.1, jsonUnmarshalAny p.2)) := by
  induction kvs with
  | nil => rfl
  | cons p kvs ih => simp [jsonUnmarshalAnyFields, ih]

theorem jsonMarshalList_eq (xs : List GoVal) :
    jsonMarshalList xs = xs.map jsonMarshal := by
  induction xs with
  | nil => rfl
  | cons x xs ih => simp [jsonMarshalList, ih]

theorem jsonMarshalFields_eq (kvs : List (String × GoVal)) :
    jsonMarshalFields kvs = kvs.map (fun p => (p.1, jsonMarshal p.2)) := by
  induction kvs with
  | nil => rfl
  | cons p kvs ih => simp [jsonMarshalFields, ih]

theorem marshalExtJSONRelaxedList_eq (xs : List BVal) :
    marshalExtJSONRelaxedList xs = xs.map marshalExtJSONRelaxed := by
  induction xs with
  | nil => rfl
  | cons x xs ih => simp [marshalExtJSONRelaxedList, ih]

theorem marshalExtJSONRelaxedFields_eq (kvs : List (String × BVal)) :
    marshalExtJSONRelaxedFields kvs = kvs.map (fun p => (p.1, marshalExtJSONRelaxed p.2)) := by
  induction kvs with
  | nil => rfl
  | cons p kvs ih => simp [marshalExtJSONRelaxedFields, ih]

theorem isOkE_map {ε α β : Type} (f : α → β) (e : Except ε α) :
    isOkE (e.map f) = isOkE e := by
  cases e <;> rfl

theorem unmarshalExtJSON_obj_cons (k : String) (v : Json) (rest : List (String × Json)) :
    unmarshalExtJSON (.obj ((k, v) :: rest)) =
      if k ∈ reservedKeys then
        match rest with
        | [] => parseWrapper k v
        | _ :: _ => .error .wrapperExtraKeys
      else (unmarshalExtJSONFields ((k, v) :: rest)).map .doc := rfl

theorem unmarshalExtJSONFields_ok {kvs : List (String × Json)} {ws : List (String × BVal)}
    (h : List.Forall₂ (fun (p : String × Json) (w : String × BVal) =>
      p.1 = w.1 ∧ unmarshalExtJSON p.2 = .ok w.2) kvs ws) :
    unmarshalExtJSONFields kvs = .ok ws := by
  induction h with
  | nil => rfl
  | @cons p w kvs' ws' hpw htl ih =>
    obtain ⟨hk, hv⟩ := hpw
    calc unmarshalExtJSONFields (p :: kvs')
        = unmarshalExtJSONFields ((p.1, p.2) :: kvs') := by rw [Prod.mk.eta]
      _ = .ok ((p.1, w.2) :: ws') := by rw [unmarshalExtJSONFields, hv, ih]
      _ = .ok (w :: ws') := by rw [hk, Prod.mk.eta]

theorem unmarshalExtJSONList_ok {xs : List Json} {vs : List BVal}
    (h : List.Forall₂ (fun (x : Json) (v : BVal) => unmarshalExtJSON x = .ok v) xs vs) :
    unmarshalExtJSONList xs = .ok vs := by
  induction h with
  | nil => rfl
  | cons hv _ ih => rw [unmarshalExtJSONList, hv, ih]

theorem unmarshalExtJSONList_err {xs : List Json} {x : Json} (hx : x ∈ xs)
    (he : isOkE (unmarshalExtJSON x) = false) :
    isOkE (unmarshalExtJSONList xs) = false := by
  induction xs with
  | nil => cases hx
  | cons y ys ih =>
    rw [unmarshalExtJSONList]
    rcases List.mem_cons.mp hx with h | h
    · subst h
      cases hy : unmarshalExtJSON x with
      | error e => rfl
      | ok v => rw [hy] at he; exact Bool.noConfusion he
    · cases hy : unmarshalExtJSON y with
      | error e => rfl
      | ok v =>
        cases hl : unmarshalExtJSONList ys with
        | error e => rfl
        | ok vs => rw [hl] at ih; exact Bool.noConfusion (ih h)

theorem unmarshalExtJSONFields_err {kvs : List (String × Json)} {p : String × Json}
    (hp : p ∈ kvs) (he : isOkE (unmarshalExtJSON p.2) = false) :
    isOkE (unmarshalExtJSONFields kvs) = false := by
  induction kvs with
  | nil => cases hp
  | cons q qs ih =>
    rw [show unmarshalExtJSONFields (q :: qs) = unmarshalExtJSONFields ((q.1, q.2) :: qs) by
      rw [Prod.mk.eta]]
    rw [unmarshalExtJSONFields]
    rcases List.mem_cons.mp hp with h | h
    · subst h
      cases hy : unmarshalExtJSON p.2 with
      | error e => rfl
      | ok v => rw [hy] at he; exact Bool.noConfusion he
    · cases hy : unmarshalExtJSON q.2 with
      | error e => rfl
      | ok v =>
        cases hl : unmarshalExtJSONFields qs with
        | error e => rfl
        | ok vs => rw [hl] at ih; exact Bool.noConfusion (ih h)

/-! ## Calendar and timestamp lemmas -/

theorem isLeap_iff (y : Nat) : isLeap y = true ↔ y % 4 = 0 ∧ (y % 100 ≠ 0 ∨ y % 400 = 0) := by
  simp [isLeap, Bool.and_eq_true, Bool.or_eq_true, beq_iff_eq, bne_iff_ne]

theorem daysBeforeYear_succ (y : Nat) :
    daysBeforeYear (y + 1) = daysBeforeYear y + daysInYear y := by
  have e4 : (y + 1 + 3) / 4 = (y + 3) / 4 + (if y % 4 = 0 then 1 else 0) := by
    split <;> omega
  have e100 : (y + 1 + 99) / 100 = (y + 99) / 100 + (if y % 100 = 0 then 1 else 0) := by
    split <;> omega
  have e400 : (y + 1 + 399) / 400 = (y + 399) / 400 + (if y % 400 = 0 then 1 else 0) := by
    split <;> omega
  unfold daysBeforeYear daysInYear
  rw [e4, e100, e400]
  by_cases h : isLeap y = true
  · rw [if_pos h]
    rw [isLeap_iff] at h
    split_ifs <;> omega
  · rw [if_neg h]
    rw [isLeap_iff] at h
    split_ifs <;> omega

theorem findYear_spec : ∀ (fuel lo hi n : Nat), lo < hi → hi - lo ≤ fuel →
    daysBeforeYear lo ≤ n → n < daysBeforeYear hi →
    lo ≤ findYear fuel lo hi n ∧ findYear fuel lo hi n < hi ∧
      daysBeforeYear (findYear fuel lo hi n) ≤ n ∧
      n < daysBeforeYear (findYear fuel lo hi n + 1) := by
  intro fuel
  induction fuel with
  | zero => intro lo hi n h1 h2 _ _; omega
  | succ fuel ih =>
    intro lo hi n h1 h2 h3 h4
    rw [findYear]
    by_cases hle : hi ≤ lo + 1
    · rw [if_pos hle]
      have he : hi = lo + 1 := by omega
      subst he
      exact ⟨Nat.le_refl lo, by omega, h3, h4⟩
    · rw [if_neg hle]
      by_cases hmid : n < daysBeforeYear ((lo + hi) / 2)
      · rw [if_pos hmid]
        obtain ⟨a, b, c, d⟩ := ih lo ((lo + hi) / 2) n (by omega) (by omega) h3 hmid
        exact ⟨a, by omega, c, d⟩
      · rw [if_neg hmid]
        obtain ⟨a, b, c, d⟩ := ih ((lo + hi) / 2) hi n (by omega) (by omega) (by omega) h4
        exact ⟨by omega, b, c, d⟩

theorem peelMonths_spec : ∀ (lens : List Nat) (m n : Nat), n < lens.sum →
    ∃ i, i < lens.length ∧ peelMonths lens m n = (m + i, n - sumFirst lens i) ∧
      sumFirst lens i ≤ n ∧ n - sumFirst lens i < lens.getD i 0 := by
  intro lens
  induction lens with
  | nil => intro m n h; simp at h
  | cons len rest ih =>
    intro m n h
    by_cases hn : n < len
    · refine ⟨0, by simp, ?_, by simp [sumFirst], ?_⟩
      · simp [peelMonths, hn, sumFirst]
      · simpa [sumFirst] using hn
    · have h2 : n - len < rest.sum := by
        simp only [List.sum_cons] at h
        omega
      obtain ⟨i, hi1, hi2, hi3, hi4⟩ := ih (m + 1) (n - len) h2
      refine ⟨i + 1, by simpa using hi1, ?_, ?_, ?_⟩
      · rw [peelMonths, if_neg hn, hi2]
        have hk1 : m + 1 + i = m + (i + 1) := by omega
        have hk2 : n - len - sumFirst rest i = n - sumFirst (len :: rest) (i + 1) := by
          simp only [sumFirst]
          omega
        rw [hk1, hk2]
      · simp only [sumFirst]
        omega
      · simp only [sumFirst, List.getD_cons_succ]
        omega

theorem monthLengths_sum (y : Nat) : (monthLengths (isLeap y)).sum = daysInYear y := by
  unfold monthLengths daysInYear
  cases isLeap y <;> decide

theorem monthLengths_length (leap : Bool) : (monthLengths leap).length = 12 := by
  cases leap <;> rfl

theorem isDigitB_digitChar (x : Nat) : isDigitB (Char.ofNat (48 + x % 10)) = true := by
  have h : x % 10 < 10 := Nat.mod_lt x (by norm_num)
  generalize x % 10 = k at h ⊢
  interval_cases k <;> rfl

theorem digitVal_digitChar (x : Nat) : digitVal (Char.ofNat (48 + x % 10)) = x % 10 := by
  have h : x % 10 < 10 := Nat.mod_lt x (by norm_num)
  generalize x % 10 = k at h ⊢
  interval_cases k <;> rfl

theorem hexDigitChar_spec {k : Nat} (hk : k < 16) :
    isHexDigitB (hexDigitChar k) = true ∧ hexDigitVal (hexDigitChar k) = k := by
  interval_cases k <;> exact ⟨rfl, rfl⟩

theorem hexPairs_roundtrip : ∀ (bytes : List Nat), (∀ b ∈ bytes, b < 256) →
    hexPairsToBytes (bytes.map hexByteChars).flatten = some bytes ∧
    (bytes.map hexByteChars).flatten.length = 2 * bytes.length := by
  intro bytes
  induction bytes with
  | nil => exact fun _ => ⟨rfl, rfl⟩
  | cons b rest ih =>
    intro hb
    have hb0 : b < 256 := hb b (List.mem_cons_self b rest)
    obtain ⟨ih1, ih2⟩ := ih (fun x hx => hb x (List.mem_cons_of_mem b hx))
    have h1 := hexDigitChar_spec (k := b / 16) (by omega)
    have h2 := hexDigitChar_spec (k := b % 16) (by omega)
    constructor
    · show hexPairsToBytes (hexDigitChar (b / 16) :: hexDigitChar (b % 16)
        :: (rest.map hexByteChars).flatten) = _
      rw [hexPairsToBytes, h1.1, h2.1]
      rw [show (true && true) = true from rfl, if_pos rfl, ih1]
      rw [h1.2, h2.2]
      have : b / 16 * 16 + b % 16 = b := by omega
      rw [this]
      rfl
    · show (hexDigitChar (b / 16) :: hexDigitChar (b % 16)
        :: (rest.map hexByteChars).flatten).length = 2 * (b :: rest).length
      simp only [List.length_cons, ih2]
      omega

theorem isDigitB_Z : isDigitB 'Z' = false := rfl

theorem digitVal_zero : digitVal '0' = 0 := rfl

theorem takeDigits_digit {c : Char} (h : isDigitB c = true) (rest : List Char) :
    takeDigits (c :: rest) = (c :: (takeDigits rest).1, (takeDigits rest).2) := by
  simp [takeDigits, h]

theorem parseFracOffset_fracChars (f : Nat) (hf : f < 1000) :
    parseFracOffset (fracChars f ++ ['Z']) = some (f, 0) := by
  have hfm : f % 1000 = f := Nat.mod_eq_of_lt hf
  by_cases hf0 : f = 0
  · subst hf0
    rfl
  · have hne : (f % 1000 == 0) = false := by
      rw [hfm]
      simp [hf0]
    by_cases h100 : f % 100 = 0
    · have h1 : fracChars f = ['.', Char.ofNat (48 + f / 100 % 10)] := by
        unfold fracChars
        rw [hne, if_neg (by decide : ¬ (false = true))]
        rw [show (f % 100 == 0) = true from beq_iff_eq.mpr h100, if_pos rfl]
      rw [h1]
      show parseFracOffset ('.' :: Char.ofNat (48 + f / 100 % 10) :: ['Z']) = _
      simp only [parseFracOffset]
      rw [takeDigits_digit (isDigitB_digitChar (f / 100))]
      rw [show takeDigits ['Z'] = ([], ['Z']) from rfl]
      rw [if_neg (by simp)]
      rw [show parseOffset ['Z'] = some 0 from rfl]
      simp only [Option.map_some]
      simp only [msOfFracDigits, List.getD_cons_zero, List.getD_cons_succ,
        List.getD_nil, digitVal_digitChar, digitVal_zero]
      have : f / 100 % 10 * 100 + 0 * 10 + 0 = f := by omega
      rw [this]
      rfl
    · by_cases h10 : f % 10 = 0
      · have h1 : fracChars f = ['.', Char.ofNat (48 + f / 100 % 10),
            Char.ofNat (48 + f / 10 % 10)] := by
          unfold fracChars
          rw [hne, if_neg (by decide : ¬ (false = true))]
          rw [show (f % 100 == 0) = false from by simp [h100], if_neg (by decide : ¬ (false = true))]
          rw [show (f % 10 == 0) = true from beq_iff_eq.mpr h10, if_pos rfl]
        rw [h1]
        show parseFracOffset ('.' :: Char.ofNat (48 + f / 100 % 10)
          :: Char.ofNat (48 + f / 10 % 10) :: ['Z']) = _
        simp only [parseFracOffset]
        rw [takeDigits_digit (isDigitB_digitChar (f / 100)),
          takeDigits_digit (isDigitB_digitChar (f / 10))]
        rw [show takeDigits ['Z'] = ([], ['Z']) from rfl]
        rw [if_neg (by simp)]
        rw [show parseOffset ['Z'] = some 0 from rfl]
        simp only [Option.map_some]
        simp only [msOfFracDigits, List.getD_cons_zero, List.getD_cons_succ,
          List.getD_nil, digitVal_digitChar, digitVal_zero]
        have : f / 100 % 10 * 100 + f / 10 % 10 * 10 + 0 = f := by omega
        rw [this]
        rfl
      · have h1 : fracChars f = ['.', Char.ofNat (48 + f / 100 % 10),
            Char.ofNat (48 + f / 10 % 10), Char.ofNat (48 + f % 10)] := by
          unfold fracChars
          rw [hne, if_neg (by decide : ¬ (false = true))]
          rw [show (f % 100 == 0) = false from by simp [h100], if_neg (by decide : ¬ (false = true))]
          rw [show (f % 10 == 0) = false from by simp [h10], if_neg (by decide : ¬ (false = true))]
        rw [h1]
        show parseFracOffset ('.' :: Char.ofNat (48 + f / 100 % 10)
          :: Char.ofNat (48 + f / 10 % 10) :: Char.ofNat (48 + f % 10) :: ['Z']) = _
        simp only [parseFracOffset]
        rw [takeDigits_digit (isDigitB_digitChar (f / 100)),
          takeDigits_digit (isDigitB_digitChar (f / 10)),
          takeDigits_digit (isDigitB_digitChar f)]
        rw [show takeDigits ['Z'] = ([], ['Z']) from rfl]
        rw [if_neg (by simp)]
        rw [show parseOffset ['Z'] = some 0 from rfl]
        simp only [Option.map_some]
        simp only [msOfFracDigits, List.getD_cons_zero, List.getD_cons_succ,
          List.getD_nil, digitVal_digitChar, digitVal_zero]
        have : f / 100 % 10 * 100 + f / 10 % 10 * 10 + f % 10 = f := by omega
        rw [this]
        rfl

theorem parseRFC3339_components (y mo d h mi sec f : Nat)
    (hy : y < 10000) (hmo1 : 1 ≤ mo) (hmo2 : mo ≤ 12) (hd1 : 1 ≤ d)
    (hd2 : d ≤ (monthLengths (isLeap y)).getD (mo - 1) 0)
    (hh : h ≤ 23) (hmi : mi ≤ 59) (hsec : sec ≤ 59) (hf : f < 1000) :
    parseRFC3339 (String.mk (pad4 y ++ '-' :: pad2 mo ++ '-' :: pad2 d ++ 'T' :: pad2 h
      ++ ':' :: pad2 mi ++ ':' :: pad2 sec ++ fracChars f ++ ['Z']))
    = some (((daysFromCivil y mo d : Int) - 719528) * 86400000
        + ((h * 3600000 + mi * 60000 + sec * 1000 + f : Nat) : Int)) := by
  have hyr : digitVal (Char.ofNat (48 + y / 1000 % 10)) * 1000
      + digitVal (Char.ofNat (48 + y / 100 % 10)) * 100
      + digitVal (Char.ofNat (48 + y / 10 % 10)) * 10
      + digitVal (Char.ofNat (48 + y % 10)) = y := by
    simp only [digitVal_digitChar]
    omega
  have hmor : digitVal (Char.ofNat (48 + mo / 10 % 10)) * 10
      + digitVal (Char.ofNat (48 + mo % 10)) = mo := by
    simp only [digitVal_digitChar]
    omega
  have hdr : digitVal (Char.ofNat (48 + d / 10 % 10)) * 10
      + digitVal (Char.ofNat (48 + d % 10)) = d := by
    have : d ≤ 31 := by
      have h31 : (monthLengths (isLeap y)).getD (mo - 1) 0 ≤ 31 := by
        cases hl : isLeap y <;> simp only [monthLengths] at * <;> interval_cases mo <;> simp_all
      omega
    simp only [digitVal_digitChar]
    omega
  have hhr : digitVal (Char.ofNat (48 + h / 10 % 10)) * 10
      + digitVal (Char.ofNat (48 + h % 10)) = h := by
    simp only [digitVal_digitChar]
    omega
  have hmir : digitVal (Char.ofNat (48 + mi / 10 % 10)) * 10
      + digitVal (Char.ofNat (48 + mi % 10)) = mi := by
    simp only [digitVal_digitChar]
    omega
  have hsecr : digitVal (Char.ofNat (48 + sec / 10 % 10)) * 10
      + digitVal (Char.ofNat (48 + sec % 10)) = sec := by
    simp only [digitVal_digitChar]
    omega
  simp only [parseRFC3339, String.toList, pad4, pad2, List.cons_append, List.nil_append]
  simp only [isDigitB_digitChar, Bool.true_and, Bool.and_self]
  rw [if_pos trivial]
  rw [hyr, hmor, hdr, hhr, hmir, hsecr]
  rw [if_pos ⟨hmo1, hmo2, hd1, hd2, hh, hmi, hsec⟩]
  rw [parseFracOffset_fracChars f hf]
  show some (((daysFromCivil y mo d : Int) - 719528) * 86400000
      + ((h * 3600000 + mi * 60000 + sec * 1000 + f : Nat) : Int) - 0 * 1000) = _
  congr 1
  omega

theorem parseRFC3339_formatRFC3339 (ms : Int) (h0 : 0 ≤ ms)
    (h1 : ms < 253402300800000) : parseRFC3339 (formatRFC3339 ms) = some ms := by
  obtain ⟨t, rfl⟩ : ∃ t : Nat, ms = (t : Int) := ⟨ms.toNat, (Int.toNat_of_nonneg h0).symm⟩
  have ht : t < 253402300800000 := by exact_mod_cast h1
  set n := 719528 + t / 86400000 with hn
  have hdb0 : daysBeforeYear 0 ≤ n := Nat.zero_le n
  have hdb1 : n < daysBeforeYear 10000 := by
    rw [show daysBeforeYear 10000 = 3652425 from rfl]
    omega
  obtain ⟨hy1, hy2, hy3, hy4⟩ := findYear_spec 10000 0 10000 n (by omega) (by omega) hdb0 hdb1
  set y := findYear 10000 0 10000 n with hydef
  have hdy : n - daysBeforeYear y < daysInYear y := by
    have := daysBeforeYear_succ y
    omega
  obtain ⟨i, hi1, hi2, hi3, hi4⟩ := peelMonths_spec (monthLengths (isLeap y)) 1
    (n - daysBeforeYear y) (by rw [monthLengths_sum]; exact hdy)
  have hlen12 : (monthLengths (isLeap y)).length = 12 := monthLengths_length (isLeap y)
  have hciv : daysToCivil n = (y, 1 + i,
      n - daysBeforeYear y - sumFirst (monthLengths (isLeap y)) i + 1) := by
    show (findYear 10000 0 10000 n,
      (peelMonths (monthLengths (isLeap (findYear 10000 0 10000 n))) 1
        (n - daysBeforeYear (findYear 10000 0 10000 n))).1,
      (peelMonths (monthLengths (isLeap (findYear 10000 0 10000 n))) 1
        (n - daysBeforeYear (findYear 10000 0 10000 n))).2 + 1) = _
    rw [← hydef, hi2]
  have hfmt : formatRFC3339 (t : Int) = String.mk (pad4 y
      ++ '-' :: pad2 (1 + i)
      ++ '-' :: pad2 (n - daysBeforeYear y - sumFirst (monthLengths (isLeap y)) i + 1)
      ++ 'T' :: pad2 (t % 86400000 / 3600000)
      ++ ':' :: pad2 (t % 86400000 / 60000 % 60)
      ++ ':' :: pad2 (t % 86400000 / 1000 % 60)
      ++ fracChars (t % 86400000 % 1000) ++ ['Z']) := by
    unfold formatRFC3339 dateChars timeChars
    rw [show ((t : Int)).toNat = t from rfl]
    rw [← hn, hciv]
    simp only [List.append_assoc, List.cons_append]
  rw [hfmt]
  rw [parseRFC3339_components y (1 + i)
      (n - daysBeforeYear y - sumFirst (monthLengths (isLeap y)) i + 1)
      (t % 86400000 / 3600000) (t % 86400000 / 60000 % 60) (t % 86400000 / 1000 % 60)
      (t % 86400000 % 1000) hy2 (by omega) (by omega) (by omega)
      (by rw [show 1 + i - 1 = i from by omega]; omega)
      (by omega) (by omega) (by omega) (by omega)]
  have hdfc : daysFromCivil y (1 + i)
      (n - daysBeforeYear y - sumFirst (monthLengths (isLeap y)) i + 1) = n := by
    unfold daysFromCivil
    rw [show 1 + i - 1 = i from by omega]
    rw [show n - daysBeforeYear y - sumFirst (monthLengths (isLeap y)) i + 1 - 1
      = n - daysBeforeYear y - sumFirst (monthLengths (isLeap y)) i from by omega]
    omega
  rw [hdfc]
  congr 1
  have hsum : t % 86400000 / 3600000 * 3600000 + t % 86400000 / 60000 % 60 * 60000
      + t % 86400000 / 1000 % 60 * 1000 + t % 86400000 % 1000 = t % 86400000 := by
    omega
  rw [hsum]
  push_cast
  omega

theorem parseOidHex_roundtrip {bytes : List Nat} (hlen : bytes.length = 12)
    (hb : ∀ b ∈ bytes, b < 256) : parseOidHex (oidHexString bytes) = some bytes := by
  obtain ⟨h1, h2⟩ := hexPairs_roundtrip bytes hb
  unfold parseOidHex oidHexString
  rw [show (String.mk (bytes.map hexByteChars).flatten).toList
    = (bytes.map hexByteChars).flatten from rfl]
  rw [h2, hlen, if_pos (by omega)]
  exact h1

/-! ## Claim C1: the decode/encode round trip -/

theorem forall₂_same_of {α : Type} {R : α → α → Prop} :
    ∀ {l : List α}, (∀ x ∈ l, R x x) → List.Forall₂ R l l
  | [], _ => .nil
  | x :: xs, h => .cons (h x (List.mem_cons_self x xs))
      (forall₂_same_of (fun a ha => h a (List.mem_cons_of_mem x ha)))

theorem reservedKeys_startWithDollar {k : String} (h : k ∈ reservedKeys) :
    startsWithDollar k = true := by
  fin_cases h <;> rfl

theorem goLexInt_intCast (i : Int) (h : i.natAbs < 1000000000000000000000) :
    goLexInt (i : Rat) = true := by
  simp [goLexInt, Rat.den_intCast, Rat.num_intCast, h]

theorem parseBareNum_int32 (i : Int) (h1 : -2147483648 ≤ i) (h2 : i < 2147483648) :
    parseBareNum (i : Rat) true = .int32 i := by
  unfold parseBareNum
  rw [if_pos ⟨rfl, Rat.den_intCast i⟩]
  rw [Rat.num_intCast]
  rw [if_pos ⟨h1, h2⟩]

theorem goRound_arr (xs : List Json) : goRound (.arr xs) = .arr (xs.map goRound) := by
  show Json.arr (jsonMarshalList (jsonUnmarshalAnyList xs)) = _
  rw [jsonUnmarshalAnyList_eq, jsonMarshalList_eq, List.map_map]
  rfl

theorem goRound_obj_pairwise {kvs : List (String × Json)}
    (h : kvs.Pairwise (fun p q => keyLt p.1 q.1 = true)) :
    goRound (.obj kvs) = .obj (kvs.map (fun p => (p.1, goRound p.2))) := by
  show Json.obj (sortByKey (jsonMarshalFields (dedupKeys (jsonUnmarshalAnyFields kvs)))) = _
  rw [jsonUnmarshalAnyFields_eq]
  rw [dedupKeys_of_pairwise_ne (by rw [List.pairwise_map]; exact h.imp fun hh => keyLt_ne hh)]
  rw [jsonMarshalFields_eq, List.map_map]
  rw [sortByKey_of_pairwise (by rw [List.pairwise_map]; exact h)]
  rfl

/-- C1 (counterexample): decoding the encoding of a storage-returned
`Int64(5)` yields `Int32(5)`, not `Int64(5)`: the relaxed writer emits the
bare number `5` and the reader maps a small integer literal to `int32`. -/
theorem c1_roundtrip_cex :
    decodeField (encodeField (.int64 5)) = .ok (.int32 5) ∧
    Except.ok (BVal.int32 5) ≠ (.ok (.int64 5) : Except EErr BVal) := by
  refine ⟨rfl, ?_⟩
  intro h
  simp at h

/-- C1 (amended): the decode-after-encode round trip holds on the restricted
grammar `Roundtrippable` (no `int64`/`double` scalars — those collapse to
`int32`/`int64` —, dates in RFC-3339 range, documents with strictly sorted
non-`$` keys); outside it the round trip fails, as the counterexample
shows. -/
theorem c1_decode_encode_roundtrip (v : BVal) (h : Roundtrippable v) :
    decodeField (encodeField v) = .ok v := by
  induction h with
  | null => rfl
  | bool b => rfl
  | str s => rfl
  | int32 i h1 h2 =>
    show unmarshalExtJSON (goRound (goRound (Json.num (i : Rat) true))) = _
    rw [show goRound (Json.num (i : Rat) true)
      = Json.num (i : Rat) (goLexInt (i : Rat)) from rfl]
    rw [goLexInt_intCast i (by omega)]
    rw [show goRound (Json.num (i : Rat) true)
      = Json.num (i : Rat) (goLexInt (i : Rat)) from rfl]
    rw [goLexInt_intCast i (by omega)]
    show Except.ok (parseBareNum (i : Rat) true) = _
    rw [parseBareNum_int32 i h1 h2]
  | objectId bytes hlen hb =>
    show unmarshalExtJSON (goRound (goRound
      (Json.obj [("$oid", Json.str (oidHexString bytes))]))) = _
    rw [show goRound (Json.obj [("$oid", Json.str (oidHexString bytes))])
      = Json.obj [("$oid", Json.str (oidHexString bytes))] from rfl]
    rw [show goRound (Json.obj [("$oid", Json.str (oidHexString bytes))])
      = Json.obj [("$oid", Json.str (oidHexString bytes))] from rfl]
    rw [unmarshalExtJSON_obj_cons, if_pos (by decide : "$oid" ∈ reservedKeys)]
    unfold parseWrapper
    rw [if_pos rfl]
    show ((match parseOidHex (oidHexString bytes) with
      | some b2 => Except.ok (BVal.objectId b2)
      | none => Except.error EErr.invalidObjectId) : Except EErr BVal) = _
    rw [parseOidHex_roundtrip hlen hb]
  | dateTime ms h1 h2 =>
    show unmarshalExtJSON (goRound (goRound (marshalExtJSONRelaxed (.dateTime ms)))) = _
    rw [show marshalExtJSONRelaxed (.dateTime ms)
      = .obj [("$date", .str (formatRFC3339 ms))] from by
        unfold marshalExtJSONRelaxed
        rw [if_pos ⟨h1, h2⟩]]
    rw [show goRound (Json.obj [("$date", Json.str (formatRFC3339 ms))])
      = Json.obj [("$date", Json.str (formatRFC3339 ms))] from rfl]
    rw [show goRound (Json.obj [("$date", Json.str (formatRFC3339 ms))])
      = Json.obj [("$date", Json.str (formatRFC3339 ms))] from rfl]
    rw [unmarshalExtJSON_obj_cons, if_pos (by decide : "$date" ∈ reservedKeys)]
    unfold parseWrapper
    rw [if_neg (by decide), if_pos rfl]
    show ((match parseRFC3339 (formatRFC3339 ms) with
      | some m2 => Except.ok (BVal.dateTime m2)
      | none => Except.error EErr.invalidDate) : Except EErr BVal) = _
    rw [parseRFC3339_formatRFC3339 ms h1 h2]
  | arr xs hall ih =>
    show Except.map BVal.arr (unmarshalExtJSONList (jsonMarshalList (jsonUnmarshalAnyList
      (jsonMarshalList (jsonUnmarshalAnyList (marshalExtJSONRelaxedList xs)))))) = _
    simp only [marshalExtJSONRelaxedList_eq, jsonUnmarshalAnyList_eq, jsonMarshalList_eq,
      List.map_map]
    have hok : unmarshalExtJSONList (xs.map (jsonMarshal ∘ (jsonUnmarshalAny ∘
        (jsonMarshal ∘ (jsonUnmarshalAny ∘ marshalExtJSONRelaxed))))) = .ok xs := by
      apply unmarshalExtJSONList_ok
      rw [List.forall₂_map_left_iff]
      apply forall₂_same_of
      intro x hx
      exact ih x hx
    rw [hok]
    rfl
  | doc kvs hall hsorted hdollar ih =>
    show unmarshalExtJSON (goRound (goRound (.obj (marshalExtJSONRelaxedFields kvs)))) = _
    rw [marshalExtJSONRelaxedFields_eq]
    rw [goRound_obj_pairwise (by rw [List.pairwise_map]; exact hsorted)]
    rw [List.map_map]
    show unmarshalExtJSON (goRound (.obj (kvs.map
      (fun p => (p.1, goRound (marshalExtJSONRelaxed p.2)))))) = _
    rw [goRound_obj_pairwise (by rw [List.pairwise_map]; exact hsorted)]
    rw [List.map_map]
    show unmarshalExtJSON (.obj (kvs.map
      (fun p => (p.1, goRound (goRound (marshalExtJSONRelaxed p.2)))))) = _
    cases kvs with
    | nil => rfl
    | cons p rest =>
      have hnres : p.1 ∉ reservedKeys := fun hm => by
        have hx1 := reservedKeys_startWithDollar hm
        have hx2 := hdollar p (List.mem_cons_self p rest)
        rw [hx1] at hx2
        exact Bool.noConfusion hx2
      rw [List.map_cons, unmarshalExtJSON_obj_cons, if_neg hnres]
      rw [unmarshalExtJSONFields]
      rw [show unmarshalExtJSON (goRound (goRound (marshalExtJSONRelaxed p.2)))
        = decodeField (encodeField p.2) from rfl, ih p (List.mem_cons_self p rest)]
      have htl : unmarshalExtJSONFields (rest.map
          (fun r => (r.1, goRound (goRound (marshalExtJSONRelaxed r.2))))) = .ok rest := by
        apply unmarshalExtJSONFields_ok
        rw [List.forall₂_map_left_iff]
        apply forall₂_same_of
        intro q hq
        exact ⟨rfl, ih q (List.mem_cons_of_mem p hq)⟩
      rw [htl]
      rfl

/-- C1 (witness): a concrete document with an array, a date, an object id and
a string round-trips. -/
theorem c1_decode_encode_roundtrip_witness :
    decodeField (encodeField (.doc [("a", .arr [.null, .bool true, .int32 7]),
      ("b", .dateTime 1704067200000),
      ("c", .objectId [0, 1, 2, 3, 4, 5, 6, 7, 8, 9, 10, 11]), ("d", .str "x")]))
    = .ok (.doc [("a", .arr [.null, .bool true, .int32 7]), ("b", .dateTime 1704067200000),
      ("c", .objectId [0, 1, 2, 3, 4, 5, 6, 7, 8, 9, 10, 11]), ("d", .str "x")]) := by
  apply c1_decode_encode_roundtrip
  refine .doc _ ?_ ?_ ?_
  · intro p hp
    fin_cases hp
    · refine .arr _ ?_
      intro x hx
      fin_cases hx
      · exact .null
      · exact .bool true
      · exact .int32 7 (by decide) (by decide)
    · exact .dateTime 1704067200000 (by decide) (by decide)
    · exact .objectId _ (by decide) (by decide)
    · exact .str "x"
  · decide
  · intro p hp
    fin_cases hp <;> decide

/-! ## Claim C2: key order in pipeline stages -/

/-- C2 (counterexample): the pipeline stage `{"$project": {"b": 1, "a": 1}}`
does not decode with the keys in the order `b`, `a`: the request passes
through a Go map and `json.Marshal`, which sorts object keys. -/
theorem c2_pipeline_key_order_cex :
    decodeField (.arr [.obj [("$project", .obj [("b", .num 1 true), ("a", .num 1 true)])]])
      ≠ .ok (.arr [.doc [("$project", .doc [("b", .int32 1), ("a", .int32 1)])]]) := by
  intro h
  rw [show decodeField
        (.arr [.obj [("$project", .obj [("b", .num 1 true), ("a", .num 1 true)])]])
      = .ok (.arr [.doc [("$project", .doc [("a", .int32 1), ("b", .int32 1)])]]) from rfl] at h
  simp at h

/-- C2 (amended): object key order is not preserved through decode; the stage
`{"$project": {"b": 1, "a": 1}}` decodes with its keys alphabetized to `a`,
`b` (the handler stores stage objects in Go maps and `json.Marshal` emits Go
map keys in sorted order before the extended JSON reader runs). -/
theorem c2_pipeline_key_order_amended :
    decodeField (.arr [.obj [("$project", .obj [("b", .num 1 true), ("a", .num 1 true)])]])
      = .ok (.arr [.doc [("$project", .doc [("a", .int32 1), ("b", .int32 1)])]]) := rfl

/-! ## Claim C3: multi-key objects and reserved keys -/

/-- C3 (counterexample): a two-key object whose first key is `$oid` with a
well-formed 24-hex payload does not decode to a literal two-key `Object`: the
driver commits to wrapper parsing on the reserved first key and rejects the
sibling key, so the whole decode fails. -/
theorem c3_reserved_sibling_cex :
    decodeField (.obj [("$oid", .str "aaaaaaaaaaaaaaaaaaaaaaaa"), ("extra", .num 1 true)])
      = .error .wrapperExtraKeys := rfl

/-- C3 (amended): a multi-key object decodes as a literal `Object` when its
first key (in the normalized sorted order produced by the Go-map stage) is
not reserved, each field decoding recursively; when the first key is
reserved, decode fails instead of producing either an ObjectId or a literal
object. -/
theorem c3_multikey_literal (kvs : List (String × Json)) (ws : List (String × BVal))
    (hlen : 2 ≤ kvs.length)
    (hsorted : kvs.Pairwise (fun p q => keyLt p.1 q.1 = true))
    (hres : ∀ p ∈ kvs, p.1 ∉ reservedKeys)
    (hvals : List.Forall₂ (fun (p : String × Json) (w : String × BVal) =>
        p.1 = w.1 ∧ decodeField p.2 = .ok w.2) kvs ws) :
    decodeField (.obj kvs) = .ok (.doc ws) := by
  have hne : (kvs.map (fun p => (p.1, jsonUnmarshalAny p.2))).Pairwise
      (fun p q => p.1 ≠ q.1) := by
    rw [List.pairwise_map]
    exact hsorted.imp (fun h => keyLt_ne h)
  have hlt : (kvs.map (fun p => (p.1, jsonUnmarshalAny p.2))).Pairwise
      (fun p q => keyLt p.1 q.1 = true) := by
    rw [List.pairwise_map]
    exact hsorted
  have hstage : decodeField (.obj kvs)
      = unmarshalExtJSON (.obj (kvs.map
          (fun p => (p.1, jsonMarshal (jsonUnmarshalAny p.2))))) := by
    show unmarshalExtJSON (jsonMarshal (.obj (dedupKeys (jsonUnmarshalAnyFields kvs)))) = _
    rw [jsonUnmarshalAnyFields_eq, dedupKeys_of_pairwise_ne hne]
    show unmarshalExtJSON (.obj (sortByKey (jsonMarshalFields _))) = _
    rw [jsonMarshalFields_eq]
    rw [List.map_map]
    have hlt2 : (kvs.map ((fun p => (p.1, jsonMarshal p.2)) ∘
        fun p => (p.1, jsonUnmarshalAny p.2))).Pairwise (fun p q => keyLt p.1 q.1 = true) := by
      rw [List.pairwise_map]
      exact hsorted
    rw [sortByKey_of_pairwise hlt2]
    rfl
  rw [hstage]
  cases kvs with
  | nil => simp at hlen
  | cons p rest =>
    rcases hvals with _ | ⟨hpw, htl⟩
    rename_i w ws'
    rw [List.map_cons, unmarshalExtJSON_obj_cons]
    rw [if_neg (hres p (List.mem_cons_self p rest))]
    have hok : unmarshalExtJSONFields
        ((p.1, jsonMarshal (jsonUnmarshalAny p.2)) ::
          rest.map (fun r => (r.1, jsonMarshal (jsonUnmarshalAny r.2)))) = .ok (w :: ws') := by
      rw [unmarshalExtJSONFields]
      rw [show unmarshalExtJSON (jsonMarshal (jsonUnmarshalAny p.2)) = decodeField p.2 from rfl,
        hpw.2]
      have htl2 : unmarshalExtJSONFields
          (rest.map (fun r => (r.1, jsonMarshal (jsonUnmarshalAny r.2)))) = .ok ws' := by
        apply unmarshalExtJSONFields_ok
        rw [List.forall₂_map_left_iff]
        exact htl.imp (fun a b hab => ⟨hab.1, hab.2⟩)
      rw [htl2, hpw.1]
    rw [hok]
    rfl

/-- C3 (witness): a concrete two-key non-reserved object decodes literally. -/
theorem c3_multikey_literal_witness :
    decodeField (.obj [("a", .num 1 true), ("b", .str "x")])
      = .ok (.doc [("a", .int32 1), ("b", .str "x")]) :=
  c3_multikey_literal [("a", .num 1 true), ("b", .str "x")]
    [("a", .int32 1), ("b", .str "x")] (by decide) (by decide)
    (by intro p hp; fin_cases hp <;> decide)
    (.cons ⟨rfl, rfl⟩ (.cons ⟨rfl, rfl⟩ .nil))

/-! ## Claim C4: invalid object ids fail the whole decode -/

/-- If a reserved-key wrapper parses, its payload also parses as a standalone
value (used contrapositively: a failing payload fails the wrapper). -/
theorem parseWrapper_ok_unmarshal_ok {k : String} {v : Json}
    (h : isOkE (parseWrapper k v) = true) : isOkE (unmarshalExtJSON v) = true := by
  unfold parseWrapper at h
  split_ifs at h with h1 h2 h3 h4
  · cases v <;> first | rfl | simp [isOkE] at h
  · split at h
    · rfl
    · rfl
    · rename_i s
      show isOkE (parseWrapper "$numberLong" (.str s)) = true
      unfold parseWrapper
      rw [if_neg (by decide), if_neg (by decide), if_pos rfl]
      have h2 : isOkE (match parseLongString s with
          | some i => (Except.ok (BVal.int64 i) : Except EErr BVal)
          | none => Except.error EErr.invalidNumber)
          = isOkE (match parseLongString s with
          | some ms => (Except.ok (BVal.dateTime ms) : Except EErr BVal)
          | none => Except.error EErr.invalidDate) := by
        cases parseLongString s <;> rfl
      rw [h2]
      exact h
    · simp [isOkE] at h
  · cases v <;> first | rfl | simp [isOkE] at h
  · cases v <;> first | rfl | simp [isOkE] at h
  · simp [isOkE] at h

/-- A bad `$oid` anywhere in a Go value makes `deserializeInput` fail: no
partial result is produced. -/
theorem containsBadOid_not_ok {g : GoVal} (h : ContainsBadOid g) :
    isOkE (deserializeInput g) = false := by
  induction h with
  | here s hs =>
    show isOkE (unmarshalExtJSON (.obj [("$oid", .str s)])) = false
    rw [unmarshalExtJSON_obj_cons, if_pos (by decide : "$oid" ∈ reservedKeys)]
    unfold parseWrapper
    rw [if_pos rfl]
    show isOkE ((match parseOidHex s with
      | some bytes => Except.ok (BVal.objectId bytes)
      | none => Except.error EErr.invalidObjectId) : Except EErr BVal) = false
    rw [hs]
    rfl
  | @inArr xs x hx hc ih =>
    show isOkE (Except.map BVal.arr (unmarshalExtJSONList (jsonMarshalList xs))) = false
    rw [isOkE_map, jsonMarshalList_eq]
    exact unmarshalExtJSONList_err (List.mem_map_of_mem jsonMarshal hx) ih
  | @inObj kvs p hp hc ih =>
    show isOkE (unmarshalExtJSON (.obj (sortByKey (jsonMarshalFields kvs)))) = false
    have hmem : (p.1, jsonMarshal p.2) ∈ sortByKey (jsonMarshalFields kvs) := by
      rw [mem_sortByKey, jsonMarshalFields_eq]
      exact List.mem_map_of_mem _ hp
    cases hL : sortByKey (jsonMarshalFields kvs) with
    | nil => rw [hL] at hmem; cases hmem
    | cons q rest =>
      rw [hL] at hmem
      obtain ⟨k1, v1⟩ := q
      rw [unmarshalExtJSON_obj_cons]
      by_cases hk : k1 ∈ reservedKeys
      · rw [if_pos hk]
        cases rest with
        | cons r rest2 => rfl
        | nil =>
          have heq : (p.1, jsonMarshal p.2) = (k1, v1) := by simpa using hmem
          have hv1 : v1 = jsonMarshal p.2 := by
            have := congrArg Prod.snd heq
            exact this.symm
          cases ho : isOkE (parseWrapper k1 v1) with
          | false => rfl
          | true =>
            exfalso
            have := parseWrapper_ok_unmarshal_ok ho
            rw [hv1] at this
            rw [show unmarshalExtJSON (jsonMarshal p.2) = deserializeInput p.2 from rfl] at this
            rw [ih] at this
            exact Bool.noConfusion this
      · rw [if_neg hk, isOkE_map]
        exact unmarshalExtJSONFields_err hmem ih

/-- C4: a findOne request whose filter contains a single-key `{"$oid": s}`
object with a malformed payload fails the whole filter decode (no partial
result), is answered 400, and never reaches the storage collaborator. -/
theorem c4_bad_oid_rejected (req : FindOneRequest) (st : FindOneStorage)
    (hbad : ContainsBadOid (jsonUnmarshalAny req.filter)) :
    isOkE (decodeField req.filter) = false ∧
    (findOneHandler req st).status = 400 ∧
    (findOneHandler req st).storageCalled = false := by
  have h := containsBadOid_not_ok hbad
  refine ⟨h, ?_, ?_⟩ <;>
  · unfold findOneHandler
    cases hd : deserializeInput (jsonUnmarshalAny req.filter) with
    | error e => rfl
    | ok v => rw [hd] at h; exact Bool.noConfusion h

/-- C4 (witness): the filter `{"$oid": "not-hex"}` is rejected with 400 and
no storage call. -/
theorem c4_bad_oid_rejected_witness :
    isOkE (decodeField (.obj [("$oid", .str "not-hex")])) = false ∧
    (findOneHandler ⟨"db", "coll", .obj [("$oid", .str "not-hex")]⟩ .noDocuments).status = 400 ∧
    (findOneHandler ⟨"db", "coll", .obj [("$oid", .str "not-hex")]⟩
      .noDocuments).storageCalled = false :=
  c4_bad_oid_rejected ⟨"db", "coll", .obj [("$oid", .str "not-hex")]⟩ .noDocuments
    (.here "not-hex" (by decide))

/-! ## Claim C5: findOne not-found versus storage failure -/

/-- C5: when the filter deserializes, a findOne whose storage lookup reports
`mongo.ErrNoDocuments` answers the distinct not-found response
`200 {"document": null}`, not a server error, while every other storage
failure surfaces as a 500 server error with the storage message. -/
theorem c5_findOne_not_found_distinct (req : FindOneRequest) (m : String)
    (hok : ∃ v, deserializeInput (jsonUnmarshalAny req.filter) = .ok v) :
    findOneHandler req .noDocuments = ⟨200, .obj [("document", .null)], true⟩ ∧
    findOneHandler req (.failure m) = ⟨500, .obj [("error", .str m)], true⟩ := by
  obtain ⟨v, hv⟩ := hok
  unfold findOneHandler
  rw [hv]
  exact ⟨rfl, rfl⟩

/-- C5 (witness): the empty filter decodes, and both storage outcomes map as
stated. -/
theorem c5_findOne_not_found_distinct_witness :
    findOneHandler ⟨"db", "coll", .obj []⟩ .noDocuments
        = ⟨200, .obj [("document", .null)], true⟩ ∧
    findOneHandler ⟨"db", "coll", .obj []⟩ (.failure "socket closed")
        = ⟨500, .obj [("error", .str "socket closed")], true⟩ :=
  c5_findOne_not_found_distinct ⟨"db", "coll", .obj []⟩ "socket closed" ⟨.doc [], rfl⟩

/-! ## Claim C6: bare JSON number inference -/

/-- C6 (counterexample): bare `42` does not decode to `Int64(42)` (it becomes
`int32`), and bare `42.0` does not decode to `Float64(42.0)` (the body parser
reads it as float64 `42`, `json.Marshal` re-prints it as `42`, and the
extended JSON reader makes that `int32`). -/
theorem c6_number_inference_cex :
    decodeField (.obj [("a", .num 42 true)]) ≠ .ok (.doc [("a", .int64 42)]) ∧
    decodeField (.obj [("a", .num 42 false)]) ≠ .ok (.doc [("a", .double 42)]) := by
  constructor
  · intro h
    rw [show decodeField (.obj [("a", .num 42 true)])
        = .ok (.doc [("a", .int32 42)]) from rfl] at h
    simp at h
  · intro h
    rw [show decodeField (.obj [("a", .num 42 false)])
        = .ok (.doc [("a", .int32 42)]) from rfl] at h
    simp at h

/-- C6 (amended): every bare JSON number is first coerced to float64 by the
body parser and re-printed by `json.Marshal`, so the lexical distinction is
lost; the re-printed literal then decodes to `int32` when integral and in
int32 range, to `int64` when integral and in int64 range, and to float64
otherwise.  Hence `42 ↦ Int32(42)`, `42.0 ↦ Int32(42)` and
`1e10 ↦ Int64(10000000000)`. -/
theorem c6_number_inference_amended :
    decodeField (.obj [("a", .num 42 true)]) = .ok (.doc [("a", .int32 42)]) ∧
    decodeField (.obj [("a", .num 42 false)]) = .ok (.doc [("a", .int32 42)]) ∧
    decodeField (.obj [("a", .num 10000000000 false)])
      = .ok (.doc [("a", .int64 10000000000)]) ∧
    decodeField (.obj [("a", .num (mkRat 5 2) false)])
      = .ok (.doc [("a", .double (mkRat 5 2))]) :=
  ⟨rfl, rfl, rfl, rfl⟩

/-! ## Claim C7: date round-trip -/

/-- C7: `{"$date": "2024-01-01T00:00:00Z"}` decodes to the UTC timestamp
1704067200000 (epoch milliseconds), and encoding that timestamp produces the
same RFC-3339 string inside a `$date` wrapper. -/
theorem c7_date_roundtrip :
    decodeField (.obj [("$date", .str "2024-01-01T00:00:00Z")])
        = .ok (.dateTime 1704067200000) ∧
    encodeField (.dateTime 1704067200000)
        = .obj [("$date", .str "2024-01-01T00:00:00Z")] :=
  ⟨rfl, rfl⟩

/-! ## Claim C8: envelope validation -/

/-- C8: the handlers perform no envelope validation.  A findOne request whose
database name is empty (the zero value Fiber produces when the field is
missing) is not rejected with a client error: the storage collaborator is
called regardless, and a resulting storage failure surfaces as a 500 server
error. -/
theorem c8_empty_database_reaches_storage (st : FindOneStorage) (m : String) :
    (findOneHandler ⟨"", "", .obj []⟩ st).storageCalled = true ∧
    (findOneHandler ⟨"", "", .obj []⟩ st).status ≠ 400 ∧
    findOneHandler ⟨"", "", .obj []⟩ (.failure m) = ⟨500, .obj [("error", .str m)], true⟩ := by
  refine ⟨?_, ?_, rfl⟩
  · cases st <;> rfl
  · cases st
    · exact (by decide : (200 : Nat) ≠ 400)
    · exact (by decide : (200 : Nat) ≠ 400)
    · exact (by decide : (500 : Nat) ≠ 400)

/-! ## Claim C9: shared-secret gate -/

/-- C9: a request to any of the nine operation routes whose `apiKey` header
differs from the configured `API_KEY` is answered 403 with the middleware's
body, and no route handler (hence no storage operation) runs — the result is
independent of the dispatch table. -/
theorem c9_api_key_mismatch_rejects (dispatch : String → AppResponse)
    (metricsResp : AppResponse) (path key env : String)
    (hpath : path ∈ apiRoutes) (hkey : key ≠ env) :
    appHandle dispatch metricsResp path key env = ⟨403, forbiddenBody, false⟩ := by
  fin_cases hpath <;> simp [appHandle, hkey]

/-- C9 (witness): a wrong key on `/api/findOne` is rejected before any
handler runs. -/
theorem c9_api_key_mismatch_rejects_witness :
    appHandle (fun _ => ⟨200, .null, true⟩) ⟨200, .null, true⟩ "/api/findOne" "wrong" "secret"
      = ⟨403, forbiddenBody, false⟩ :=
  c9_api_key_mismatch_rejects _ _ _ _ _ (by decide) (by decide)

/-! ## Claim C10: health and metrics exemption -/

/-- C10: `/api/health` and `/metrics` are exempt from the shared-secret
check: whatever the `apiKey` header and the configured secret are, the health
endpoint answers `200 {"status": "ok"}` and the metrics endpoint answers with
the metrics handler's response. -/
theorem c10_health_metrics_exempt (dispatch : String → AppResponse)
    (metricsResp : AppResponse) (key env : String) :
    appHandle dispatch metricsResp "/api/health" key env = ⟨200, healthBody, true⟩ ∧
    appHandle dispatch metricsResp "/metrics" key env = metricsResp :=
  ⟨rfl, rfl⟩

end MongoApi
